import Mathlib

/-!
Verification of the row-to-structure transformer of `my-weigh`
(`src/index.js`, function `transformRawDataToProgram`).

The transformer consumes an ordered sequence of row records (mappings from
column label to cell value) together with a sheet label, and produces a
`Program` containing a single `Week`.  Cell values are modelled as strings
(the JavaScript code stringifies every cell with `String(...)` before use).
A row record is modelled as an association list from column label to cell
value; `hasOwnProperty` becomes `List.lookup · |>.isSome`.

The per-column walk of the JavaScript code mutates a `currentExercise`
reference that always points at the most recently pushed element of the
session's `exercises` array.  We purify this as a state
`List Exercise × Option Exercise`: the finished exercises, plus the current
exercise held apart and flushed into the list when the next title arrives
or the column ends.
-/

namespace MyWeigh

/-- An exercise: a title together with the ordered list of set
specifications attached to it (field names follow the JSON output). -/
structure Exercise where
  title : String
  sets : List String
deriving DecidableEq, Repr

/-- A session: the session column label and its exercises. -/
structure Session where
  session_number : String
  exercises : List Exercise
deriving DecidableEq, Repr

/-- A week: the sheet label and the sessions extracted from that sheet. -/
structure Week where
  week_date : String
  sessions : List Session
deriving DecidableEq, Repr

/-- The final program document. -/
structure Program where
  weeks : List Week
deriving DecidableEq, Repr

/-- A row record: an association list from column label to (stringified)
cell value.  A key is "present" when `lookup` succeeds. -/
abbrev Row := List (String × String)

/-- Strip leading and trailing whitespace from a character list. -/
def trimChars (cs : List Char) : List Char :=
  ((cs.dropWhile Char.isWhitespace).reverse.dropWhile Char.isWhitespace).reverse

/-- JavaScript `String.prototype.trim`, on our string model. -/
def trimStr (s : String) : String :=
  ⟨trimChars s.data⟩

/-- JavaScript `cellValue.includes('%')`: for a single-character needle,
membership of that character in the string. -/
def containsChar (s : String) (c : Char) : Bool :=
  s.data.contains c

/-- `/^\d/.test cellValue`: the first character is a decimal digit
(`false` on the empty string). -/
def leadingDigit (s : String) : Bool :=
  match s.data with
  | [] => false
  | c :: _ => c.isDigit

/-- The classifier of `src/index.js` line 35:
`cellValue.includes('%') || /^\d/.test(cellValue)`.
`true` means the cell is a set specification, `false` a title. -/
def isSet (cellValue : String) : Bool :=
  containsChar cellValue '%' || leadingDigit cellValue

/-- The fixed session column set (`src/index.js` line 14). -/
def sessionColumns : List String := ["אימון 1", "אימון 2", "אימון 3"]

/-- Walk state: finished exercises, plus the current exercise (if any). -/
abbrev WalkState := List Exercise × Option Exercise

/-- Finish a walk: the current exercise, when present, is the last element
of the session's exercise list. -/
def flushState (st : WalkState) : List Exercise :=
  st.1 ++ st.2.toList

/-- Process one cell value (`src/index.js` lines 31-47): trim it; a title
starts a new current exercise (the previous one, already complete, moves
to the finished list); a set specification is appended to the current
exercise's sets, or dropped when there is no current exercise. -/
def stepCell (st : WalkState) (raw : String) : WalkState :=
  let cellValue := trimStr raw
  if isSet cellValue then
    match st with
    | (done, some cur) => (done, some { cur with sets := cur.sets ++ [cellValue] })
    | (done, none) => (done, none)
  else
    (st.1 ++ st.2.toList, some { title := cellValue, sets := [] })

/-- Process one row for a given session column (`src/index.js` lines
28-30): rows lacking the key are skipped, leaving the state unchanged. -/
def stepRow (sessionName : String) (st : WalkState) (row : Row) : WalkState :=
  match row.lookup sessionName with
  | some v => stepCell st v
  | none => st

/-- The per-column walk over the rows (`src/index.js` lines 26-49). -/
def walkRows (rawData : List Row) (sessionName : String) : List Exercise :=
  flushState (rawData.foldl (stepRow sessionName) ([], none))

/-- The per-column walk expressed directly on the sequence of cell values
present in the column. -/
def walkColumn (vals : List String) : List Exercise :=
  flushState (vals.foldl stepCell ([], none))

/-- `rawData.some(row => row.hasOwnProperty(sessionName))`
(`src/index.js` line 18). -/
def hasColumn (rawData : List Row) (sessionName : String) : Bool :=
  rawData.any (fun row => (row.lookup sessionName).isSome)

/-- Loop body of the outer loop (`src/index.js` lines 16-55): skip the
column when absent from every row (line 18), walk the rows, and append
the session only when it has at least one exercise (line 52). -/
def addSession (rawData : List Row) (sessions : List Session) (sessionName : String) :
    List Session :=
  if hasColumn rawData sessionName then
    let exercises := walkRows rawData sessionName
    if 0 < exercises.length then
      sessions ++ [{ session_number := sessionName, exercises := exercises }]
    else
      sessions
  else
    sessions

/-- The transformer (`src/index.js` lines 11-64): process each session
column in order, then wrap the collected sessions in one week carrying
the sheet name. -/
def transformRawDataToProgram (rawData : List Row) (sheetName : String) : Program :=
  { weeks := [{ week_date := sheetName,
                sessions := sessionColumns.foldl (addSession rawData) [] }] }

/-- The session produced for one column, as an `Option`: present exactly
when the column occurs in some row and the walk yields an exercise. -/
def sessionFor (rawData : List Row) (sessionName : String) : Option Session :=
  if hasColumn rawData sessionName = true ∧ 0 < (walkRows rawData sessionName).length then
    some { session_number := sessionName, exercises := walkRows rawData sessionName }
  else
    none

/-- All sessions of a program, across its weeks. -/
def programSessions (p : Program) : List Session :=
  (p.weeks.map Week.sessions).flatten

/-- The session recorded for a given session column label, if any. -/
def sessionFound (p : Program) (sessionName : String) : Option Session :=
  (programSessions p).find? (fun s => s.session_number == sessionName)

/-- The session produced for one column, as a function of the sequence of
cell values present in that column. -/
def sessionForVals (vals : List String) (sessionName : String) : Option Session :=
  if vals ≠ [] ∧ 0 < (walkColumn vals).length then
    some { session_number := sessionName, exercises := walkColumn vals }
  else
    none

/-! ### Basic lemmas about the walk -/

theorem stepRow_of_lookup_none {sessionName : String} {st : WalkState} {row : Row}
    (h : row.lookup sessionName = none) : stepRow sessionName st row = st := by
  simp [stepRow, h]

theorem stepRow_of_lookup_some {sessionName : String} {st : WalkState} {row : Row} {v : String}
    (h : row.lookup sessionName = some v) : stepRow sessionName st row = stepCell st v := by
  simp [stepRow, h]

theorem foldl_stepRow_eq_foldl_stepCell (sessionName : String) :
    ∀ (rows : List Row) (st : WalkState),
      rows.foldl (stepRow sessionName) st =
        (rows.filterMap (fun row => row.lookup sessionName)).foldl stepCell st := by
  intro rows
  induction rows with
  | nil => intro st; rfl
  | cons row rows ih =>
    intro st
    rw [List.foldl_cons, List.filterMap_cons]
    cases h : row.lookup sessionName with
    | none => rw [stepRow_of_lookup_none h, ih]
    | some v => rw [stepRow_of_lookup_some h, List.foldl_cons, ih]

theorem walkRows_eq_walkColumn (rawData : List Row) (sessionName : String) :
    walkRows rawData sessionName =
      walkColumn (rawData.filterMap (fun row => row.lookup sessionName)) := by
  rw [walkRows, walkColumn, foldl_stepRow_eq_foldl_stepCell]

theorem hasColumn_iff (rawData : List Row) (sessionName : String) :
    hasColumn rawData sessionName = true ↔
      rawData.filterMap (fun row => row.lookup sessionName) ≠ [] := by
  rw [hasColumn, List.any_eq_true]
  constructor
  · rintro ⟨row, hmem, hsome⟩ hnil
    have := List.filterMap_eq_nil_iff.mp hnil row hmem
    rw [this] at hsome
    simp at hsome
  · intro hne
    by_contra hall
    push_neg at hall
    refine hne (List.filterMap_eq_nil_iff.mpr ?_)
    intro row hmem
    have := hall row hmem
    cases h : row.lookup sessionName with
    | none => rfl
    | some v => rw [h] at this; simp at this

theorem sessionFor_eq_sessionForVals (rawData : List Row) (sessionName : String) :
    sessionFor rawData sessionName =
      sessionForVals (rawData.filterMap (fun row => row.lookup sessionName)) sessionName := by
  rw [sessionFor, sessionForVals, walkRows_eq_walkColumn]
  by_cases h1 : rawData.filterMap (fun row => row.lookup sessionName) = []
  · have hc : ¬ (hasColumn rawData sessionName = true) :=
      fun hh => ((hasColumn_iff rawData sessionName).mp hh) h1
    simp [h1, hc]
  · have hc : hasColumn rawData sessionName = true :=
      (hasColumn_iff rawData sessionName).mpr h1
    simp [h1, hc]

/-! ### Characterization of the session list built by the outer loop -/

theorem sessionFor_session_number {rawData : List Row} {sessionName : String} {sess : Session}
    (h : sessionFor rawData sessionName = some sess) :
    sess.session_number = sessionName ∧ sess.exercises = walkRows rawData sessionName := by
  rw [sessionFor] at h
  split at h
  · cases h
    exact ⟨rfl, rfl⟩
  · cases h

theorem sessionFor_exercises_length {rawData : List Row} {sessionName : String} {sess : Session}
    (h : sessionFor rawData sessionName = some sess) : 0 < sess.exercises.length := by
  rw [sessionFor] at h
  split at h
  · cases h
    next hcond => exact hcond.2
  · cases h

theorem addSession_eq_append (rawData : List Row) (acc : List Session) (sessionName : String) :
    addSession rawData acc sessionName = acc ++ (sessionFor rawData sessionName).toList := by
  by_cases h1 : hasColumn rawData sessionName = true
  · by_cases h2 : 0 < (walkRows rawData sessionName).length
    · simp [addSession, sessionFor, h1, h2]
    · simp [addSession, sessionFor, h1, h2]
  · simp [addSession, sessionFor, h1]

theorem foldl_addSession_eq_filterMap (rawData : List Row) :
    ∀ (cols : List String) (acc : List Session),
      cols.foldl (addSession rawData) acc = acc ++ cols.filterMap (sessionFor rawData) := by
  intro cols
  induction cols with
  | nil => intro acc; simp
  | cons c cols ih =>
    intro acc
    rw [List.foldl_cons, addSession_eq_append, ih, List.filterMap_cons]
    cases h : sessionFor rawData c <;> simp [h]

theorem programSessions_transform (rawData : List Row) (sheetName : String) :
    programSessions (transformRawDataToProgram rawData sheetName) =
      sessionColumns.filterMap (sessionFor rawData) := by
  rw [programSessions, transformRawDataToProgram]
  simp [foldl_addSession_eq_filterMap]

theorem find?_sessionFor_of_not_mem (rawData : List Row) (sessionName : String) :
    ∀ cols : List String, sessionName ∉ cols →
      (cols.filterMap (sessionFor rawData)).find?
        (fun s => s.session_number == sessionName) = none := by
  intro cols
  induction cols with
  | nil => intro _; rfl
  | cons c cols ih =>
    intro h
    have hc : sessionName ≠ c := fun e => h (e ▸ List.mem_cons_self c cols)
    have hcols : sessionName ∉ cols := fun e => h (List.mem_cons_of_mem c e)
    rw [List.filterMap_cons]
    cases hsf : sessionFor rawData c with
    | none => exact ih hcols
    | some sess =>
      rw [List.find?_cons_of_neg, ih hcols]
      have hnum := (sessionFor_session_number hsf).1
      simp [hnum]
      exact fun e => hc e.symm

theorem find?_sessionFor_of_mem (rawData : List Row) (sessionName : String) :
    ∀ cols : List String, cols.Nodup → sessionName ∈ cols →
      (cols.filterMap (sessionFor rawData)).find?
        (fun s => s.session_number == sessionName) = sessionFor rawData sessionName := by
  intro cols
  induction cols with
  | nil => intro _ h; cases h
  | cons c cols ih =>
    intro hnd hmem
    have hnotc : c ∉ cols := (List.nodup_cons.mp hnd).1
    have hndcols : cols.Nodup := (List.nodup_cons.mp hnd).2
    rw [List.filterMap_cons]
    by_cases hec : sessionName = c
    · subst hec
      cases hsf : sessionFor rawData sessionName with
      | none => rw [find?_sessionFor_of_not_mem rawData sessionName cols hnotc]
      | some sess =>
        rw [List.find?_cons_of_pos]
        have hnum := (sessionFor_session_number hsf).1
        simp [hnum]
    · have hmem2 : sessionName ∈ cols := by
        cases List.mem_cons.mp hmem with
        | inl h => exact absurd h hec
        | inr h => exact h
      cases hsf : sessionFor rawData c with
      | none => exact ih hndcols hmem2
      | some sess =>
        rw [List.find?_cons_of_neg, ih hndcols hmem2]
        have hnum := (sessionFor_session_number hsf).1
        simp [hnum]
        exact fun e => hec e.symm

theorem sessionColumns_nodup : sessionColumns.Nodup := by decide

theorem sessionFound_transform (rawData : List Row) (sheetName : String)
    {sessionName : String} (h : sessionName ∈ sessionColumns) :
    sessionFound (transformRawDataToProgram rawData sheetName) sessionName =
      sessionFor rawData sessionName := by
  rw [sessionFound, programSessions_transform]
  exact find?_sessionFor_of_mem rawData sessionName sessionColumns sessionColumns_nodup h

/-! ### Evaluation lemmas for one step of the walk -/

theorem stepCell_title {t : String} (h : isSet (trimStr t) = false) (st : WalkState) :
    stepCell st t = (flushState st, some { title := trimStr t, sets := [] }) := by
  simp [stepCell, h, flushState]

theorem stepCell_set_some {v : String} (h : isSet (trimStr v) = true)
    (done : List Exercise) (cur : Exercise) :
    stepCell (done, some cur) v = (done, some { cur with sets := cur.sets ++ [trimStr v] }) := by
  simp [stepCell, h]

theorem stepCell_orphan {v : String} (h : isSet (trimStr v) = true) (done : List Exercise) :
    stepCell (done, none) v = (done, none) := by
  simp [stepCell, h]

/-! ### The sets invariant: every stored set entry classifies as a set -/

/-- Every set entry of every exercise in the list classifies as a set. -/
def SetsOk (exs : List Exercise) : Prop :=
  ∀ e ∈ exs, ∀ s ∈ e.sets, isSet s = true

/-- The invariant carried through the walk. -/
def StateOk (st : WalkState) : Prop :=
  SetsOk st.1 ∧ SetsOk st.2.toList

theorem SetsOk.append {l1 l2 : List Exercise} (h1 : SetsOk l1) (h2 : SetsOk l2) :
    SetsOk (l1 ++ l2) := by
  intro e he
  cases List.mem_append.mp he with
  | inl h => exact h1 e h
  | inr h => exact h2 e h

theorem StateOk.flush {st : WalkState} (h : StateOk st) : SetsOk (flushState st) :=
  SetsOk.append h.1 h.2

theorem stateOk_stepCell {st : WalkState} (h : StateOk st) (raw : String) :
    StateOk (stepCell st raw) := by
  by_cases hset : isSet (trimStr raw) = true
  · obtain ⟨done, cur⟩ := st
    cases cur with
    | none =>
      rw [stepCell_orphan hset]
      exact h
    | some cur =>
      rw [stepCell_set_some hset]
      refine ⟨h.1, ?_⟩
      intro e he s hs
      simp only [Option.toList_some, List.mem_singleton] at he
      subst he
      simp only [List.mem_append, List.mem_singleton] at hs
      cases hs with
      | inl hmem => exact h.2 cur (by simp) s (by simpa using hmem)
      | inr heq => exact heq ▸ hset
  · simp only [Bool.not_eq_true] at hset
    rw [stepCell_title hset]
    refine ⟨StateOk.flush h, ?_⟩
    intro e he s hs
    simp only [Option.toList_some, List.mem_singleton] at he
    subst he
    simp at hs

theorem stateOk_foldl_stepCell :
    ∀ (vals : List String) (st : WalkState), StateOk st → StateOk (vals.foldl stepCell st) := by
  intro vals
  induction vals with
  | nil => intro st h; exact h
  | cons v vals ih =>
    intro st h
    rw [List.foldl_cons]
    exact ih _ (stateOk_stepCell h v)

theorem setsOk_walkColumn (vals : List String) : SetsOk (walkColumn vals) := by
  rw [walkColumn]
  refine StateOk.flush (stateOk_foldl_stepCell vals ([], none) ?_)
  exact ⟨fun e he => absurd he (List.not_mem_nil e), fun e he => by simp at he⟩

theorem setsOk_walkRows (rawData : List Row) (sessionName : String) :
    SetsOk (walkRows rawData sessionName) := by
  rw [walkRows_eq_walkColumn]
  exact setsOk_walkColumn _

/-! ### Orphan set specifications before the first title are dropped -/

theorem walkColumn_drop_orphans :
    ∀ (orphans rest : List String), (∀ v ∈ orphans, isSet (trimStr v) = true) →
      walkColumn (orphans ++ rest) = walkColumn rest := by
  intro orphans
  induction orphans with
  | nil => intro rest _; rfl
  | cons v orphans ih =>
    intro rest h
    have hv : isSet (trimStr v) = true := h v (List.mem_cons_self v orphans)
    rw [List.cons_append, walkColumn, List.foldl_cons, stepCell_orphan hv]
    exact ih rest fun w hw => h w (List.mem_cons_of_mem v hw)

/-! ### Shape of the walk after a title -/

/-- Walking onward from a live current exercise: the finished list is
preserved, the current exercise keeps its title and only extends its
sets, and everything later comes after it. -/
theorem foldl_stepCell_some_shape :
    ∀ (post : List String) (done : List Exercise) (cur : Exercise),
      ∃ (extra : List String) (rest : List Exercise),
        flushState (post.foldl stepCell (done, some cur)) =
          done ++ ({ cur with sets := cur.sets ++ extra } :: rest) := by
  intro post
  induction post with
  | nil =>
    intro done cur
    exact ⟨[], [], by simp [flushState]⟩
  | cons v post ih =>
    intro done cur
    rw [List.foldl_cons]
    by_cases hv : isSet (trimStr v) = true
    · rw [stepCell_set_some hv]
      obtain ⟨extra, rest, hshape⟩ := ih done { cur with sets := cur.sets ++ [trimStr v] }
      refine ⟨trimStr v :: extra, rest, ?_⟩
      rw [hshape]
      simp
    · simp only [Bool.not_eq_true] at hv
      rw [stepCell_title hv]
      obtain ⟨extra, rest, hshape⟩ :=
        ih (flushState (done, some cur)) { title := trimStr v, sets := [] }
      refine ⟨[], { title := trimStr v, sets := [] ++ extra } :: rest, ?_⟩
      rw [hshape]
      simp [flushState]

/-! ### Rows lacking the session column are invisible to the walk -/

theorem foldl_stepRow_gap (sessionName : String) :
    ∀ (gap : List Row) (st : WalkState), (∀ r ∈ gap, r.lookup sessionName = none) →
      gap.foldl (stepRow sessionName) st = st := by
  intro gap
  induction gap with
  | nil => intro st _; rfl
  | cons r gap ih =>
    intro st h
    rw [List.foldl_cons, stepRow_of_lookup_none (h r (List.mem_cons_self r gap))]
    exact ih st fun r2 h2 => h r2 (List.mem_cons_of_mem r h2)

theorem walkRows_skip_gap (sessionName : String) (pre gap post : List Row)
    (hgap : ∀ r ∈ gap, r.lookup sessionName = none) :
    walkRows (pre ++ gap ++ post) sessionName = walkRows (pre ++ post) sessionName := by
  rw [walkRows, walkRows, List.foldl_append, List.foldl_append, List.foldl_append,
      foldl_stepRow_gap sessionName gap _ hgap]

/-! ### The classifier characterized -/

theorem leadingDigit_iff (s : String) :
    leadingDigit s = true ↔ ∃ c cs, s.data = c :: cs ∧ c.isDigit = true := by
  rw [leadingDigit.eq_def]
  cases hs : s.data with
  | nil => simp
  | cons c cs =>
    constructor
    · intro h
      exact ⟨c, cs, rfl, h⟩
    · rintro ⟨c2, cs2, hcs, hd⟩
      injection hcs with h1 h2
      rw [h1]
      exact hd

/-! ### The claims -/

/-- C1: the classifier marks a cell as a set specification if and only if
the trimmed string contains the character `%` or its first character is a
decimal digit, and marks it as a title otherwise; the classification is an
exhaustive two-way partition with no third outcome, and the empty string
classifies as a title. -/
theorem claim_C1 (v : String) :
    (isSet (trimStr v) = true ↔
      (containsChar (trimStr v) '%' = true ∨
        ∃ c cs, (trimStr v).data = c :: cs ∧ c.isDigit = true)) ∧
    (isSet (trimStr v) = true ∨ isSet (trimStr v) = false) ∧
    isSet (trimStr "") = false := by
  refine ⟨?_, ?_, by decide⟩
  · rw [isSet, Bool.or_eq_true, leadingDigit_iff]
  · cases h : isSet (trimStr v)
    · exact Or.inr rfl
    · exact Or.inl rfl

/-- C2: on the rows `[{S: "Squat"}, {S: "80%x5"}, {S: "85%x3"}, {S: "Bench"},
{S: "5"}]` with session column `S = "אימון 1"`, the transformer produces
exactly one session with that session number, containing exactly the two
exercises `{title: "Squat", sets: ["80%x5", "85%x3"]}` and
`{title: "Bench", sets: ["5"]}`, in that order. -/
theorem claim_C2 (sheetName : String) :
    transformRawDataToProgram
      [[("אימון 1", "Squat")], [("אימון 1", "80%x5")], [("אימון 1", "85%x3")],
       [("אימון 1", "Bench")], [("אימון 1", "5")]] sheetName =
    ⟨[⟨sheetName,
       [⟨"אימון 1",
         [⟨"Squat", ["80%x5", "85%x3"]⟩, ⟨"Bench", ["5"]⟩]⟩]⟩]⟩ := rfl

/-- C3: in every week produced by the transformer, every entry of every
exercise's sets sequence classifies as a set specification; and a prefix of
set-specification cells encountered before any title in a session column is
silently dropped, contributing nothing to the walk. -/
theorem claim_C3 (rawData : List Row) (sheetName : String) :
    (∀ sess ∈ programSessions (transformRawDataToProgram rawData sheetName),
       ∀ e ∈ sess.exercises, ∀ s ∈ e.sets, isSet s = true) ∧
    (∀ (sessionName : String) (orphans rest : List String),
       rawData.filterMap (fun row => row.lookup sessionName) = orphans ++ rest →
       (∀ v ∈ orphans, isSet (trimStr v) = true) →
       walkRows rawData sessionName = walkColumn rest) := by
  constructor
  · intro sess hmem
    rw [programSessions_transform] at hmem
    obtain ⟨c, _, hsf⟩ := List.mem_filterMap.mp hmem
    have hex := (sessionFor_session_number hsf).2
    rw [hex]
    exact setsOk_walkRows rawData c
  · intro sessionName orphans rest hsplit hall
    rw [walkRows_eq_walkColumn, hsplit]
    exact walkColumn_drop_orphans orphans rest hall

/-- Witness for C3 at a concrete input: a leading orphan `"5"` in column
`"אימון 1"` contributes nothing to the walk. -/
theorem claim_C3_witness :
    walkRows [[("אימון 1", "5")], [("אימון 1", "Squat")]] "אימון 1" = walkColumn ["Squat"] :=
  (claim_C3 [[("אימון 1", "5")], [("אימון 1", "Squat")]] "w").2
    "אימון 1" ["5"] ["Squat"] (by decide) (by decide)

/-- C4: for a session column from the fixed session column set that no row
record has as a key, the output week contains no session with that session
number (not even an empty one). -/
theorem claim_C4 (rawData : List Row) (sheetName : String) {sessionName : String}
    (hmem : sessionName ∈ sessionColumns)
    (habsent : ∀ row ∈ rawData, row.lookup sessionName = none) :
    sessionFound (transformRawDataToProgram rawData sheetName) sessionName = none := by
  rw [sessionFound_transform rawData sheetName hmem, sessionFor]
  have hfm : rawData.filterMap (fun row => row.lookup sessionName) = [] :=
    List.filterMap_eq_nil_iff.mpr habsent
  have hc : ¬ hasColumn rawData sessionName = true :=
    fun hh => (hasColumn_iff rawData sessionName).mp hh hfm
  simp [hc]

/-- Witness for C4 at a concrete input: rows that never mention
`"אימון 1"` yield no session for it. -/
theorem claim_C4_witness :
    sessionFound (transformRawDataToProgram [[("x", "1")]] "w") "אימון 1" = none :=
  claim_C4 [[("x", "1")]] "w" (by decide) (by decide)

/-- C5: a session appears in the week if and only if its exercise sequence
is non-empty: every session in the output has at least one exercise, and a
session column that is present and whose walk yields exercises does appear. -/
theorem claim_C5 (rawData : List Row) (sheetName : String) :
    (∀ sess ∈ programSessions (transformRawDataToProgram rawData sheetName),
       sess.exercises ≠ []) ∧
    (∀ sessionName ∈ sessionColumns,
       hasColumn rawData sessionName = true →
       walkRows rawData sessionName ≠ [] →
       ({ session_number := sessionName,
          exercises := walkRows rawData sessionName } : Session) ∈
         programSessions (transformRawDataToProgram rawData sheetName)) := by
  constructor
  · intro sess hmem
    rw [programSessions_transform] at hmem
    obtain ⟨c, _, hsf⟩ := List.mem_filterMap.mp hmem
    exact List.ne_nil_of_length_pos (sessionFor_exercises_length hsf)
  · intro sessionName hmem hcol hne
    rw [programSessions_transform]
    refine List.mem_filterMap.mpr ⟨sessionName, hmem, ?_⟩
    rw [sessionFor]
    have hlen : 0 < (walkRows rawData sessionName).length := List.length_pos.mpr hne
    simp [hcol, hlen]

/-- Witness for C5 at a concrete input: a column with one title produces a
session that appears in the output. -/
theorem claim_C5_witness :
    ({ session_number := "אימון 1",
       exercises := walkRows [[("אימון 1", "Squat")]] "אימון 1" } : Session) ∈
      programSessions (transformRawDataToProgram [[("אימון 1", "Squat")]] "w") :=
  (claim_C5 [[("אימון 1", "Squat")]] "w").2 "אימון 1" (by decide) (by decide) (by decide)

/-- C6: when a title cell is immediately followed by another title cell in
the values of a session column, the walk produces two consecutive exercise
entries in order, the first with an empty sets sequence; the empty-set
exercise is retained, not dropped. -/
theorem claim_C6 (rawData : List Row) (sessionName : String)
    (pre post : List String) (t1 t2 : String)
    (hsplit : rawData.filterMap (fun row => row.lookup sessionName) =
      pre ++ t1 :: t2 :: post)
    (h1 : isSet (trimStr t1) = false) (h2 : isSet (trimStr t2) = false) :
    ∃ (sets2 : List String) (rest : List Exercise),
      walkRows rawData sessionName =
        walkColumn pre ++
          ⟨trimStr t1, []⟩ :: ⟨trimStr t2, sets2⟩ :: rest := by
  rw [walkRows_eq_walkColumn, hsplit, walkColumn, List.foldl_append,
      List.foldl_cons, List.foldl_cons, stepCell_title h1, stepCell_title h2]
  obtain ⟨extra, rest, hshape⟩ :=
    foldl_stepCell_some_shape post
      (flushState (flushState (pre.foldl stepCell ([], none)),
        some { title := trimStr t1, sets := [] }))
      { title := trimStr t2, sets := [] }
  rw [hshape]
  refine ⟨extra, rest, ?_⟩
  simp [flushState, walkColumn]

/-- Witness for C6 at a concrete input: two adjacent titles in a column
give two exercises, the first with no sets. -/
theorem claim_C6_witness :
    ∃ (sets2 : List String) (rest : List Exercise),
      walkRows [[("אימון 1", "Squat")], [("אימון 1", "Bench")]] "אימון 1" =
        walkColumn [] ++ ⟨trimStr "Squat", []⟩ :: ⟨trimStr "Bench", sets2⟩ :: rest :=
  claim_C6 [[("אימון 1", "Squat")], [("אימון 1", "Bench")]] "אימון 1" [] []
    "Squat" "Bench" (by decide) (by decide) (by decide)

/-- C7: rows lacking the session column key are skipped entirely by the
walk of that column, leaving the state untouched; in particular a set cell
after such a gap is still appended to the exercise created before the gap. -/
theorem claim_C7 (sessionName : String) (pre gap post : List Row)
    (hgap : ∀ r ∈ gap, r.lookup sessionName = none) :
    walkRows (pre ++ gap ++ post) sessionName = walkRows (pre ++ post) sessionName ∧
    (∀ t v : String, isSet (trimStr t) = false → isSet (trimStr v) = true →
      walkRows ([[(sessionName, t)]] ++ gap ++ [[(sessionName, v)]]) sessionName =
        [⟨trimStr t, [trimStr v]⟩]) := by
  constructor
  · exact walkRows_skip_gap sessionName pre gap post hgap
  · intro t v ht hv
    rw [walkRows_skip_gap sessionName [[(sessionName, t)]] gap [[(sessionName, v)]] hgap]
    have hlt : ([(sessionName, t)] : Row).lookup sessionName = some t := by simp
    have hlv : ([(sessionName, v)] : Row).lookup sessionName = some v := by simp
    rw [walkRows, List.singleton_append, List.foldl_cons, List.foldl_cons, List.foldl_nil,
        stepRow_of_lookup_some hlt, stepRow_of_lookup_some hlv,
        stepCell_title ht, stepCell_set_some hv]
    simp [flushState]

/-- Witness for C7 at a concrete input: a row of another column between a
title row and a set row changes nothing for the walked column. -/
theorem claim_C7_witness :
    walkRows ([[("אימון 1", "Squat")]] ++ [[("אחר", "x")]] ++ [[("אימון 1", "5")]])
        "אימון 1" =
      walkRows ([[("אימון 1", "Squat")]] ++ [[("אימון 1", "5")]]) "אימון 1" :=
  (claim_C7 "אימון 1" [[("אימון 1", "Squat")]] [[("אחר", "x")]] [[("אימון 1", "5")]]
    (by decide)).1

/-- C8: for every input the transformer returns exactly one week, whose
week date equals the sheet label exactly, even when the session list is
empty. -/
theorem claim_C8 (rawData : List Row) (sheetName : String) :
    (transformRawDataToProgram rawData sheetName).weeks.length = 1 ∧
    ∀ w ∈ (transformRawDataToProgram rawData sheetName).weeks, w.week_date = sheetName := by
  refine ⟨rfl, ?_⟩
  intro w hw
  rw [transformRawDataToProgram] at hw
  simp at hw
  rw [hw]

/-- Witness for C8 at a concrete input: the single week of an empty sheet
carries the sheet label. -/
theorem claim_C8_witness :
    ({ week_date := "w", sessions := [] } : Week).week_date = "w" :=
  (claim_C8 [] "w").2 { week_date := "w", sessions := [] } (by decide)

/-- C9: the transformer is total and deterministic: every well-formed
input yields a result, and equal inputs yield equal outputs. -/
theorem claim_C9 (rows1 rows2 : List Row) (n1 n2 : String)
    (hrows : rows1 = rows2) (hnames : n1 = n2) :
    (∃ p : Program, transformRawDataToProgram rows1 n1 = p) ∧
    transformRawDataToProgram rows1 n1 = transformRawDataToProgram rows2 n2 :=
  ⟨⟨transformRawDataToProgram rows1 n1, rfl⟩, by rw [hrows, hnames]⟩

/-- Witness for C9 at a concrete input. -/
theorem claim_C9_witness :
    (∃ p : Program, transformRawDataToProgram [] "w" = p) ∧
    transformRawDataToProgram [] "w" = transformRawDataToProgram [] "w" :=
  claim_C9 [] [] "w" "w" rfl rfl

/-- C10: column noninterference: the session recorded for a session column
depends only on the ordered sequence of values present under that column
across the rows; inputs agreeing on that sequence yield the same session
for that column, whatever the other columns hold. -/
theorem claim_C10 (rows1 rows2 : List Row) (n1 n2 : String) {sessionName : String}
    (hmem : sessionName ∈ sessionColumns)
    (hvals : rows1.filterMap (fun row => row.lookup sessionName) =
             rows2.filterMap (fun row => row.lookup sessionName)) :
    sessionFound (transformRawDataToProgram rows1 n1) sessionName =
      sessionFound (transformRawDataToProgram rows2 n2) sessionName := by
  rw [sessionFound_transform rows1 n1 hmem, sessionFound_transform rows2 n2 hmem,
      sessionFor_eq_sessionForVals, sessionFor_eq_sessionForVals, hvals]

/-- Witness for C10 at a concrete input: junk under another column label
does not change the session extracted for `"אימון 1"`. -/
theorem claim_C10_witness :
    sessionFound
        (transformRawDataToProgram [[("אימון 1", "Squat"), ("אחר", "junk")]] "w1")
        "אימון 1" =
      sessionFound
        (transformRawDataToProgram [[("אימון 1", "Squat")], [("אימון 2", "5")]] "w2")
        "אימון 1" :=
  claim_C10 [[("אימון 1", "Squat"), ("אחר", "junk")]]
    [[("אימון 1", "Squat")], [("אימון 2", "5")]] "w1" "w2" (by decide) (by decide)

end MyWeigh
